import Mathlib

/-!
Verification of the periodic-cell geometry kernel `src/micmec/pes/cell.c`
(micmec / YAFF cell kernel).

Embedding conventions.  Every IEEE double value supplied by a caller is a
rational number, so caller-supplied buffers (`rvecs`, `gvecs`, `delta`,
`cart`) are modelled as functions `Nat -> Rat` (flat row-major arrays, as in
the C source); only the indices the C code reads are ever used.  The C `int`
and `long` types are modelled as `Int`.  The derived quantities that involve
`sqrt` (`volume`, the spacings) are modelled exactly over the reals; the
spacings live in `ENNReal` because the C expression `1.0/sqrt(...)` yields
IEEE `+inf` on an all-zero row, which `ENNReal` represents as `⊤` (in
`ENNReal`, `x⁻¹ = ⊤` at `x = 0`).  Functions that mutate an array in place
in C (`cell_mic`, `cell_to_center`, `cell_add_vec`) return the updated
array; arrays the C code never stores to (for example `cart` in
`cell_to_center`) are plain inputs, so their preservation is by
construction of the embedding.
-/

open scoped ENNReal

/-- The cell record of `cell.h` / `cell.c`: direct vectors `rvecs` (9
doubles, row-major), reciprocal vectors `gvecs` (9 doubles), the two
spacing triples, the volume, and the periodic dimensionality `nvec`. -/
structure cell_type where
  nvec : ℤ
  rvecs : ℕ → ℚ
  gvecs : ℕ → ℚ
  rspacings : ℕ → ℝ≥0∞
  gspacings : ℕ → ℝ≥0∞
  volume : ℝ

/-- Squared Euclidean norm of row `i` of a flat 3x3 array, i.e.
`v[3i]*v[3i] + v[3i+1]*v[3i+1] + v[3i+2]*v[3i+2]` as in `cell_update`. -/
def rowNormSq (v : ℕ → ℚ) (i : ℕ) : ℚ :=
  v (3 * i) * v (3 * i) + v (3 * i + 1) * v (3 * i + 1) + v (3 * i + 2) * v (3 * i + 2)

/-- The spacing computation of `cell_update`: `1.0/sqrt(row norm squared)`.
An all-zero row gives `1/0 = +inf` in IEEE doubles, modelled as `⊤`. -/
noncomputable def spacingOf (v : ℕ → ℚ) (i : ℕ) : ℝ≥0∞ :=
  1 / ENNReal.ofReal (Real.sqrt ((rowNormSq v i : ℚ) : ℝ))

/-- The `case 2` scratch value of `cell_update`: with `a` = row 0 and
`b` = row 1 of `rvecs`, this is `|a|²·|b|² − (a·b)²` (the C code first puts
`a·b` in `tmp` and then overwrites `tmp` with this difference). -/
def gram2 (rvecs : ℕ → ℚ) : ℚ :=
  (rvecs 0 * rvecs 0 + rvecs 1 * rvecs 1 + rvecs 2 * rvecs 2) *
    (rvecs 3 * rvecs 3 + rvecs 4 * rvecs 4 + rvecs 5 * rvecs 5) -
  (rvecs 0 * rvecs 3 + rvecs 1 * rvecs 4 + rvecs 2 * rvecs 5) *
    (rvecs 0 * rvecs 3 + rvecs 1 * rvecs 4 + rvecs 2 * rvecs 5)

/-- The `case 3` volume expression of `cell_update`: the scalar triple
product of rows 0, 1, 2 of `rvecs` (before taking `fabs`). -/
def triple (rvecs : ℕ → ℚ) : ℚ :=
  rvecs 0 * (rvecs 4 * rvecs 8 - rvecs 5 * rvecs 7) +
  rvecs 1 * (rvecs 5 * rvecs 6 - rvecs 3 * rvecs 8) +
  rvecs 2 * (rvecs 3 * rvecs 7 - rvecs 4 * rvecs 6)

/-- `cell_update` from `cell.c`: copies the 9 entries of `rvecs` and
`gvecs` and the dimensionality into the cell, recomputes all three
`rspacings`/`gspacings` slots unconditionally, and computes the volume by a
`switch` on `nvec` with cases 0,1,2,3 and no `default` — for any other
`nvec` the `switch` falls through and the previously stored volume is kept
(state partially updated). -/
noncomputable def cell_update (cell : cell_type) (rvecs gvecs : ℕ → ℚ) (nvec : ℤ) : cell_type where
  nvec := nvec
  rvecs := fun i => if i < 9 then rvecs i else cell.rvecs i
  gvecs := fun i => if i < 9 then gvecs i else cell.gvecs i
  rspacings := fun i => if i < 3 then spacingOf gvecs i else cell.rspacings i
  gspacings := fun i => if i < 3 then spacingOf rvecs i else cell.gspacings i
  volume :=
    if nvec = 0 then 0
    else if nvec = 1 then Real.sqrt ((rowNormSq rvecs 0 : ℚ) : ℝ)
    else if nvec = 2 then
      if 0 < gram2 rvecs then Real.sqrt ((gram2 rvecs : ℚ) : ℝ) else 0
    else if nvec = 3 then |((triple rvecs : ℚ) : ℝ)|
    else cell.volume

/-- The fractional projection computed in `cell_mic` / `cell_to_center`:
`gvecs[3k]*d[0] + gvecs[3k+1]*d[1] + gvecs[3k+2]*d[2]`. -/
def mic_f (cell : cell_type) (d : ℕ → ℚ) (k : ℕ) : ℚ :=
  cell.gvecs (3 * k) * d 0 + cell.gvecs (3 * k + 1) * d 1 + cell.gvecs (3 * k + 2) * d 2

/-- The translation count `x = ceil(f − 0.5)` computed in `cell_mic` for
direction `k` (an integral-valued double in C, modelled as `Int`). -/
def mic_x (cell : cell_type) (d : ℕ → ℚ) (k : ℕ) : ℤ :=
  ⌈mic_f cell d k - 1 / 2⌉

/-- One unrolled block of `cell_mic`: subtract `x * rvecs[3k+i]` from
`delta[i]` for `i = 0,1,2`, with `x = mic_x` for direction `k`. -/
def micStep (cell : cell_type) (d : ℕ → ℚ) (k : ℕ) : ℕ → ℚ :=
  fun i => if i < 3 then d i - (mic_x cell d k : ℚ) * cell.rvecs (3 * k + i) else d i

/-- `cell_mic` from `cell.c`: the unrolled minimum-image reduction.  Early
return on `nvec == 0`; after each direction an early return on
`nvec == 1` resp. `nvec == 2`; any other `nvec` value runs all three
directions. -/
def cell_mic (delta : ℕ → ℚ) (cell : cell_type) : ℕ → ℚ :=
  if cell.nvec = 0 then delta
  else
    let d0 := micStep cell delta 0
    if cell.nvec = 1 then d0
    else
      let d1 := micStep cell d0 1
      if cell.nvec = 2 then d1
      else micStep cell d1 2

/-- `cell_to_center` from `cell.c`: writes `center[k] = -ceil(gvecs[k]·cart − 0.5)`
for each direction the `nvec` early returns allow; `cart` is never written. -/
def cell_to_center (cart : ℕ → ℚ) (cell : cell_type) (center : ℕ → ℤ) : ℕ → ℤ :=
  if cell.nvec = 0 then center
  else
    let c0 := Function.update center 0 (-⌈mic_f cell cart 0 - 1 / 2⌉)
    if cell.nvec = 1 then c0
    else
      let c1 := Function.update c0 1 (-⌈mic_f cell cart 1 - 1 / 2⌉)
      if cell.nvec = 2 then c1
      else Function.update c1 2 (-⌈mic_f cell cart 2 - 1 / 2⌉)

/-- One unrolled block of `cell_add_vec`: add `r[k] * rvecs[3k+i]` to
`delta[i]` for `i = 0,1,2`. -/
def addStep (cell : cell_type) (d : ℕ → ℚ) (r : ℕ → ℤ) (k : ℕ) : ℕ → ℚ :=
  fun i => if i < 3 then d i + (r k : ℚ) * cell.rvecs (3 * k + i) else d i

/-- `cell_add_vec` from `cell.c`: adds the integer combination
`Σ r[k]·rvecs[k]` to `delta`, with the same `nvec` early-return structure
as `cell_mic`. -/
def cell_add_vec (delta : ℕ → ℚ) (cell : cell_type) (r : ℕ → ℤ) : ℕ → ℚ :=
  if cell.nvec = 0 then delta
  else
    let d0 := addStep cell delta r 0
    if cell.nvec = 1 then d0
    else
      let d1 := addStep cell d0 r 1
      if cell.nvec = 2 then d1
      else addStep cell d1 r 2

/-- `cell_get_nvec` from `cell.c`. -/
def cell_get_nvec (cell : cell_type) : ℤ := cell.nvec

/-- `cell_get_volume` from `cell.c`. -/
def cell_get_volume (cell : cell_type) : ℝ := cell.volume

/-- `cell_copy_rvecs` from `cell.c`: copies `n = full ? 9 : nvec*3`
entries of `rvecs` out of the cell (a negative count copies nothing, as
the C `for` loop body never runs). -/
def cell_copy_rvecs (cell : cell_type) (full : Bool) : List ℚ :=
  (List.range (if full then 9 else (cell.nvec * 3).toNat)).map cell.rvecs

/-- `cell_copy_gvecs` from `cell.c`. -/
def cell_copy_gvecs (cell : cell_type) (full : Bool) : List ℚ :=
  (List.range (if full then 9 else (cell.nvec * 3).toNat)).map cell.gvecs

/-- `cell_copy_rspacings` from `cell.c`: copies `n = full ? 3 : nvec`
entries of `rspacings`. -/
def cell_copy_rspacings (cell : cell_type) (full : Bool) : List ℝ≥0∞ :=
  (List.range (if full then 3 else cell.nvec.toNat)).map cell.rspacings

/-- `cell_copy_gspacings` from `cell.c`. -/
def cell_copy_gspacings (cell : cell_type) (full : Bool) : List ℝ≥0∞ :=
  (List.range (if full then 3 else cell.nvec.toNat)).map cell.gspacings

/-- `cell_to_frac` from `cell.c`: the plain matrix-vector product with
`gvecs`, independent of `nvec`. -/
def cell_to_frac (cell : cell_type) (cart : ℕ → ℚ) : ℕ → ℚ :=
  fun j => if j < 3 then mic_f cell cart j else 0

/-- The Displacement Reducer as the spec describes it (§4.2): a sequential
loop over the active directions `k = 0, …, n-1` in index order, each step
computing its projection from the already-updated displacement. -/
def micLoop (cell : cell_type) (d : ℕ → ℚ) : ℕ → (ℕ → ℚ)
  | 0 => d
  | n + 1 => micStep cell (micLoop cell d n) n

/-- The integer translation counts `x` computed during `cell_mic`'s
reduction of `d`: direction `k`'s count is taken at the displacement
already updated by the previous directions, exactly as in the unrolled
source. -/
def mic_counts (cell : cell_type) (d : ℕ → ℚ) : ℕ → ℤ := fun k =>
  if k = 0 then mic_x cell d 0
  else if k = 1 then mic_x cell (micStep cell d 0) 1
  else if k = 2 then mic_x cell (micStep cell (micStep cell d 0) 1) 2
  else 0

/-- Dot product of reciprocal row `j` with direct row `k`; the
direct/reciprocal duality contract of the data model is
`dotGR cell j k = δ_jk` for active rows. -/
def dotGR (cell : cell_type) (j k : ℕ) : ℚ :=
  cell.gvecs (3 * j) * cell.rvecs (3 * k) + cell.gvecs (3 * j + 1) * cell.rvecs (3 * k + 1) +
    cell.gvecs (3 * j + 2) * cell.rvecs (3 * k + 2)

/-- The error taxonomy of spec §7 for the Constructor/Update. -/
inductive UpdateError where
  | invalidDimension
  deriving DecidableEq

/-- Modelled from the spec: the reimplementation's Constructor/Update is
required (spec §4.1, §7, §9) to reject `nvec` outside {0,1,2,3} with an
explicit `InvalidDimension` failure instead of the reference C's silent
fall-through; this checked constructor is not part of the C source under
`src/`, so it is modelled from the spec's words.  On failure no new cell
state is produced (the update is aborted, the prior state untouched); on
success it performs exactly the source's `cell_update`. -/
noncomputable def cell_update_checked (cell : cell_type) (rvecs gvecs : ℕ → ℚ)
    (nvec : ℤ) : Except UpdateError cell_type :=
  if nvec = 0 ∨ nvec = 1 ∨ nvec = 2 ∨ nvec = 3 then
    Except.ok (cell_update cell rvecs gvecs nvec)
  else Except.error UpdateError.invalidDimension

/-- A fully aperiodic cell with zeroed storage, for concrete witnesses. -/
def cell0 : cell_type :=
  { nvec := 0, rvecs := fun _ => 0, gvecs := fun _ => 0,
    rspacings := fun _ => 0, gspacings := fun _ => 0, volume := 0 }

/-- The 3D cubic cell of the spec's concrete scenario (side 10). -/
def cubeCell : cell_type :=
  { nvec := 3,
    rvecs := fun i => if i = 0 ∨ i = 4 ∨ i = 8 then 10 else 0,
    gvecs := fun i => if i = 0 ∨ i = 4 ∨ i = 8 then 1 / 10 else 0,
    rspacings := fun _ => 0, gspacings := fun _ => 0, volume := 0 }

/-- A 1-periodic (chain) cell for concrete witnesses. -/
def chainCell : cell_type :=
  { nvec := 1,
    rvecs := fun i => if i = 0 then 2 else 0,
    gvecs := fun i => if i = 0 then 1 / 2 else 0,
    rspacings := fun _ => 0, gspacings := fun _ => 0, volume := 0 }

/-- A 2-periodic (slab) cell, the unit square in the xy-plane. -/
def slabCell : cell_type :=
  { nvec := 2,
    rvecs := fun i => if i = 0 ∨ i = 4 then 1 else 0,
    gvecs := fun i => if i = 0 ∨ i = 4 then 1 else 0,
    rspacings := fun _ => 0, gspacings := fun _ => 0, volume := 0 }

/-- The spec-scenario displacement `[7, −3, 12]`. -/
def delta0 : ℕ → ℚ := fun i => if i = 0 then 7 else if i = 1 then -3 else if i = 2 then 12 else 0

/-! ## Helper lemmas -/

/-- Applying the nearest-integer reduction `q ↦ q − ⌈q − 1/2⌉` once leaves a
value whose own translation count is zero. -/
theorem ceil_reduce (q : ℚ) : ⌈q - (⌈q - 1 / 2⌉ : ℚ) - 1 / 2⌉ = 0 := by
  rw [Int.ceil_eq_zero_iff, Set.mem_Ioc]
  have h1 := Int.le_ceil (q - 1 / 2)
  have h2 := Int.ceil_lt_add_one (q - 1 / 2)
  exact ⟨by linarith, by linarith⟩

/-- Effect of one reduction step on a fractional projection: direction `k`'s
step changes projection `j` by `x · (gvecs row j · rvecs row k)`. -/
theorem mic_f_micStep (cell : cell_type) (d : ℕ → ℚ) (j k : ℕ) :
    mic_f cell (micStep cell d k) j =
      mic_f cell d j - (mic_x cell d k : ℚ) * dotGR cell j k := by
  simp [mic_f, micStep, dotGR]
  ring

/-- A reduction step with translation count zero does nothing. -/
theorem micStep_of_count_zero (cell : cell_type) (d : ℕ → ℚ) (k : ℕ)
    (h : mic_x cell d k = 0) : micStep cell d k = d := by
  funext i
  simp [micStep, h]

/-- If a displacement's projection along `k` is the once-reduced projection
of some other displacement, its own count along `k` is zero. -/
theorem mic_x_eq_zero (cell : cell_type) (d e : ℕ → ℚ) (k : ℕ)
    (h : mic_f cell e k = mic_f cell d k - (mic_x cell d k : ℚ)) :
    mic_x cell e k = 0 := by
  unfold mic_x
  rw [h]
  unfold mic_x
  exact ceil_reduce (mic_f cell d k)

/-- A mapped prefix of `List.range`. -/
theorem range_map_take {α : Type} (f : ℕ → α) (m n : ℕ) (h : m ≤ n) :
    (List.range m).map f = ((List.range n).map f).take m := by
  rw [← List.map_take, List.take_range, min_eq_left h]

/-- The element count `nvec*3` of the vector copy accessors. -/
theorem copy_count (n : ℤ) : (n * 3).toNat = n.toNat * 3 := by omega

/-! ## Claim theorems -/

/-- Claim C1: for `nvec ∈ {0,1,2,3}`, `cell_update` stores as volume: `0.0`
for `nvec = 0`; the Euclidean norm of direct row 0 for `nvec = 1`;
`sqrt(max(0, |a|²·|b|² − (a·b)²))` for rows a = row 0, b = row 1 when
`nvec = 2` (negative round-off clamped to 0 before the square root); the
absolute scalar triple product of rows 0,1,2 for `nvec = 3` — hence the
volume is non-negative in every case. -/
theorem cell_update_volume_cases (cell : cell_type) (rvecs gvecs : ℕ → ℚ) (nvec : ℤ)
    (h : nvec = 0 ∨ nvec = 1 ∨ nvec = 2 ∨ nvec = 3) :
    ((nvec = 0 → (cell_update cell rvecs gvecs nvec).volume = 0) ∧
     (nvec = 1 → (cell_update cell rvecs gvecs nvec).volume =
        Real.sqrt ((rvecs 0 * rvecs 0 + rvecs 1 * rvecs 1 + rvecs 2 * rvecs 2 : ℚ) : ℝ)) ∧
     (nvec = 2 → (cell_update cell rvecs gvecs nvec).volume =
        Real.sqrt (max 0 ((gram2 rvecs : ℚ) : ℝ))) ∧
     (nvec = 3 → (cell_update cell rvecs gvecs nvec).volume = |((triple rvecs : ℚ) : ℝ)|)) ∧
    0 ≤ (cell_update cell rvecs gvecs nvec).volume := by
  constructor
  · refine ⟨fun h0 => ?_, fun h1 => ?_, fun h2 => ?_, fun h3 => ?_⟩
    · norm_num [cell_update, h0]
    · norm_num [cell_update, h1, rowNormSq]
    · norm_num [cell_update, h2]
      by_cases hg : 0 < gram2 rvecs
      · rw [if_pos hg, max_eq_right]
        exact_mod_cast hg.le
      · rw [if_neg hg, max_eq_left, Real.sqrt_zero]
        exact_mod_cast not_lt.mp hg
    · norm_num [cell_update, h3]
  · rcases h with h|h|h|h
    · norm_num [cell_update, h]
    · norm_num [cell_update, h]
    · norm_num [cell_update, h]
      split
      · exact Real.sqrt_nonneg _
      · exact le_refl 0
    · norm_num [cell_update, h]

/-- Concrete instance of the C1 theorem at `nvec = 2`. -/
theorem cell_update_volume_cases_witness :
    (((2 : ℤ) = 0 → (cell_update cell0 delta0 delta0 2).volume = 0) ∧
     ((2 : ℤ) = 1 → (cell_update cell0 delta0 delta0 2).volume =
        Real.sqrt ((delta0 0 * delta0 0 + delta0 1 * delta0 1 + delta0 2 * delta0 2 : ℚ) : ℝ)) ∧
     ((2 : ℤ) = 2 → (cell_update cell0 delta0 delta0 2).volume =
        Real.sqrt (max 0 ((gram2 delta0 : ℚ) : ℝ))) ∧
     ((2 : ℤ) = 3 → (cell_update cell0 delta0 delta0 2).volume = |((triple delta0 : ℚ) : ℝ)|)) ∧
    0 ≤ (cell_update cell0 delta0 delta0 2).volume :=
  cell_update_volume_cases cell0 delta0 delta0 2 (by decide)

/-- Claim C2: for `nvec ∈ {1,2,3}` the unrolled `cell_mic` equals the
sequential reduction loop over directions `0, …, nvec−1` in index order,
each direction computing `f` from the already-updated displacement,
`t = ceil(f − 0.5)`, and subtracting `t·rvecs[k]` elementwise; directions
`k ≥ nvec` are never executed. -/
theorem cell_mic_eq_micLoop (delta : ℕ → ℚ) (cell : cell_type)
    (h : cell.nvec = 1 ∨ cell.nvec = 2 ∨ cell.nvec = 3) :
    cell_mic delta cell = micLoop cell delta cell.nvec.toNat := by
  rcases h with h|h|h <;> norm_num [cell_mic, micLoop, h]

/-- Concrete instance of the C2 theorem on a 1-periodic cell. -/
theorem cell_mic_eq_micLoop_witness :
    cell_mic delta0 chainCell = micLoop chainCell delta0 chainCell.nvec.toNat :=
  cell_mic_eq_micLoop delta0 chainCell (Or.inl (by decide))

/-- Claim C6: with `nvec = 0` the Displacement Reducer, the Index
Transform, and the Translation Applicator are all exact no-ops. -/
theorem nvec_zero_noop (cell : cell_type) (h : cell.nvec = 0) (delta cart d2 : ℕ → ℚ)
    (center : ℕ → ℤ) (r : ℕ → ℤ) :
    cell_mic delta cell = delta ∧ cell_to_center cart cell center = center ∧
      cell_add_vec d2 cell r = d2 := by
  refine ⟨?_, ?_, ?_⟩ <;> simp [cell_mic, cell_to_center, cell_add_vec, h]

/-- Concrete instance of the C6 theorem. -/
theorem nvec_zero_noop_witness :
    cell_mic delta0 cell0 = delta0 ∧
      cell_to_center delta0 cell0 (fun _ => 5) = (fun _ => 5) ∧
      cell_add_vec delta0 cell0 (fun _ => 7) = delta0 :=
  nvec_zero_noop cell0 (by decide) delta0 delta0 delta0 (fun _ => 5) (fun _ => 7)

/-- Claim C3: the spec-mandated Constructor/Update rejects `nvec` outside
{0,1,2,3} with an explicit `InvalidDimension` failure, aborting the update
(no new cell state is produced, so the stored state is untouched rather
than partially updated), and never fails for `nvec ∈ {0,1,2,3}`, where it
performs the full source update. -/
theorem cell_update_checked_policy (cell : cell_type) (rvecs gvecs : ℕ → ℚ) (nvec : ℤ) :
    (¬(nvec = 0 ∨ nvec = 1 ∨ nvec = 2 ∨ nvec = 3) →
      cell_update_checked cell rvecs gvecs nvec = Except.error UpdateError.invalidDimension) ∧
    ((nvec = 0 ∨ nvec = 1 ∨ nvec = 2 ∨ nvec = 3) →
      cell_update_checked cell rvecs gvecs nvec = Except.ok (cell_update cell rvecs gvecs nvec)) := by
  constructor
  · intro hn
    simp only [cell_update_checked, if_neg hn]
  · intro hn
    simp only [cell_update_checked, if_pos hn]

/-- Concrete instance of the C3 theorem: `nvec = 5` is rejected, `nvec = 3`
is accepted. -/
theorem cell_update_checked_policy_witness :
    cell_update_checked cell0 delta0 delta0 5 = Except.error UpdateError.invalidDimension ∧
      cell_update_checked cell0 delta0 delta0 3 = Except.ok (cell_update cell0 delta0 delta0 3) :=
  ⟨(cell_update_checked_policy cell0 delta0 delta0 5).1 (by decide),
   (cell_update_checked_policy cell0 delta0 delta0 3).2 (by decide)⟩

/-- Claim C4: applying `cell_add_vec` with the translation counts that
`cell_mic` computed during reduction reproduces the original displacement
exactly (exact arithmetic). -/
theorem mic_roundtrip (delta : ℕ → ℚ) (cell : cell_type)
    (h : cell.nvec = 0 ∨ cell.nvec = 1 ∨ cell.nvec = 2 ∨ cell.nvec = 3) :
    cell_add_vec (cell_mic delta cell) cell (mic_counts cell delta) = delta := by
  rcases h with h|h|h|h <;> funext i <;>
    norm_num [cell_mic, cell_add_vec, h] <;>
    by_cases hi : i < 3 <;>
    simp [micStep, addStep, mic_counts, hi] <;> ring

/-- Concrete instance of the C4 theorem on the spec's cubic cell. -/
theorem mic_roundtrip_witness :
    cell_add_vec (cell_mic delta0 cubeCell) cubeCell (mic_counts cubeCell delta0) = delta0 :=
  mic_roundtrip delta0 cubeCell (by decide)

/-- Claim C7: each copy accessor yields all 9 (vectors) resp. 3 (spacings)
elements with `full = true` regardless of `nvec`, and exactly the first
`nvec*3` resp. `nvec` elements with `full = false`, which coincide with the
prefix of the `full = true` result.  (The accessors are pure functions of
the cell in this embedding — the C bodies only read `(*cell)` — so no
accessor mutates the Cell.) -/
theorem cell_copy_modes (cell : cell_type)
    (h : cell.nvec = 0 ∨ cell.nvec = 1 ∨ cell.nvec = 2 ∨ cell.nvec = 3) :
    (cell_copy_rvecs cell true).length = 9 ∧
    (cell_copy_gvecs cell true).length = 9 ∧
    (cell_copy_rspacings cell true).length = 3 ∧
    (cell_copy_gspacings cell true).length = 3 ∧
    (cell_copy_rvecs cell false).length = cell.nvec.toNat * 3 ∧
    (cell_copy_gvecs cell false).length = cell.nvec.toNat * 3 ∧
    (cell_copy_rspacings cell false).length = cell.nvec.toNat ∧
    (cell_copy_gspacings cell false).length = cell.nvec.toNat ∧
    cell_copy_rvecs cell false = (cell_copy_rvecs cell true).take (cell.nvec.toNat * 3) ∧
    cell_copy_gvecs cell false = (cell_copy_gvecs cell true).take (cell.nvec.toNat * 3) ∧
    cell_copy_rspacings cell false = (cell_copy_rspacings cell true).take cell.nvec.toNat ∧
    cell_copy_gspacings cell false = (cell_copy_gspacings cell true).take cell.nvec.toNat := by
  have hm : cell.nvec.toNat * 3 ≤ 9 := by rcases h with h|h|h|h <;> simp [h]
  have hn : cell.nvec.toNat ≤ 3 := by rcases h with h|h|h|h <;> simp [h]
  refine ⟨by simp [cell_copy_rvecs], by simp [cell_copy_gvecs],
    by simp [cell_copy_rspacings], by simp [cell_copy_gspacings],
    by simp [cell_copy_rvecs, copy_count], by simp [cell_copy_gvecs, copy_count],
    by simp [cell_copy_rspacings], by simp [cell_copy_gspacings], ?_, ?_, ?_, ?_⟩
  · simp only [cell_copy_rvecs, copy_count]
    norm_num
    exact range_map_take _ _ _ hm
  · simp only [cell_copy_gvecs, copy_count]
    norm_num
    exact range_map_take _ _ _ hm
  · simp only [cell_copy_rspacings]
    norm_num
    exact range_map_take _ _ _ hn
  · simp only [cell_copy_gspacings]
    norm_num
    exact range_map_take _ _ _ hn

/-- Concrete instance of the C7 theorem on the 2-periodic slab cell. -/
theorem cell_copy_modes_witness :
    (cell_copy_rvecs slabCell true).length = 9 ∧
    (cell_copy_gvecs slabCell true).length = 9 ∧
    (cell_copy_rspacings slabCell true).length = 3 ∧
    (cell_copy_gspacings slabCell true).length = 3 ∧
    (cell_copy_rvecs slabCell false).length = slabCell.nvec.toNat * 3 ∧
    (cell_copy_gvecs slabCell false).length = slabCell.nvec.toNat * 3 ∧
    (cell_copy_rspacings slabCell false).length = slabCell.nvec.toNat ∧
    (cell_copy_gspacings slabCell false).length = slabCell.nvec.toNat ∧
    cell_copy_rvecs slabCell false = (cell_copy_rvecs slabCell true).take (slabCell.nvec.toNat * 3) ∧
    cell_copy_gvecs slabCell false = (cell_copy_gvecs slabCell true).take (slabCell.nvec.toNat * 3) ∧
    cell_copy_rspacings slabCell false = (cell_copy_rspacings slabCell true).take slabCell.nvec.toNat ∧
    cell_copy_gspacings slabCell false = (cell_copy_gspacings slabCell true).take slabCell.nvec.toNat :=
  cell_copy_modes slabCell (by decide)

/-- Claim C8: every `cell_update` call recomputes all three spacing slots
unconditionally — for every `nvec` and every `i < 3`,
`rspacings[i] = 1/‖gvecs row i‖₂` and `gspacings[i] = 1/‖rvecs row i‖₂` —
and an all-zero row yields `+∞` (the computation is total, never a crash). -/
theorem cell_update_spacings (cell : cell_type) (rvecs gvecs : ℕ → ℚ) (nvec : ℤ) (i : ℕ)
    (hi : i < 3) :
    ((cell_update cell rvecs gvecs nvec).rspacings i =
        1 / ENNReal.ofReal (Real.sqrt ((rowNormSq gvecs i : ℚ) : ℝ)) ∧
      (cell_update cell rvecs gvecs nvec).gspacings i =
        1 / ENNReal.ofReal (Real.sqrt ((rowNormSq rvecs i : ℚ) : ℝ))) ∧
    ((gvecs (3 * i) = 0 ∧ gvecs (3 * i + 1) = 0 ∧ gvecs (3 * i + 2) = 0) →
      (cell_update cell rvecs gvecs nvec).rspacings i = ⊤) ∧
    ((rvecs (3 * i) = 0 ∧ rvecs (3 * i + 1) = 0 ∧ rvecs (3 * i + 2) = 0) →
      (cell_update cell rvecs gvecs nvec).gspacings i = ⊤) := by
  refine ⟨⟨?_, ?_⟩, ?_, ?_⟩
  · simp [cell_update, hi, spacingOf]
  · simp [cell_update, hi, spacingOf]
  · rintro ⟨h0, h1, h2⟩
    simp [cell_update, hi, spacingOf, rowNormSq, h0, h1, h2, one_div, ENNReal.inv_zero]
  · rintro ⟨h0, h1, h2⟩
    simp [cell_update, hi, spacingOf, rowNormSq, h0, h1, h2, one_div, ENNReal.inv_zero]

/-- Concrete instance of the C8 theorem at `i = 0` with an out-of-range
`nvec = 7` (the spacings are recomputed regardless). -/
theorem cell_update_spacings_witness :
    ((cell_update cell0 delta0 (fun _ => 0) 7).rspacings 0 =
        1 / ENNReal.ofReal (Real.sqrt ((rowNormSq (fun _ => 0) 0 : ℚ) : ℝ)) ∧
      (cell_update cell0 delta0 (fun _ => 0) 7).gspacings 0 =
        1 / ENNReal.ofReal (Real.sqrt ((rowNormSq delta0 0 : ℚ) : ℝ))) ∧
    (((fun _ => (0 : ℚ)) (3 * 0) = 0 ∧ (fun _ => (0 : ℚ)) (3 * 0 + 1) = 0 ∧
        (fun _ => (0 : ℚ)) (3 * 0 + 2) = 0) →
      (cell_update cell0 delta0 (fun _ => 0) 7).rspacings 0 = ⊤) ∧
    ((delta0 (3 * 0) = 0 ∧ delta0 (3 * 0 + 1) = 0 ∧ delta0 (3 * 0 + 2) = 0) →
      (cell_update cell0 delta0 (fun _ => 0) 7).gspacings 0 = ⊤) :=
  cell_update_spacings cell0 delta0 (fun _ => 0) 7 0 (by decide)

/-- Claim C9: for `nvec ∈ {1,2,3}` the Index Transform writes
`center[k] = -ceil(gvecs[k]·cart − 0.5)` for every active `k`, each value
computed from the original, unmodified `cart` (which the call never
writes). -/
theorem cell_to_center_values (cart : ℕ → ℚ) (cell : cell_type) (center : ℕ → ℤ)
    (h : cell.nvec = 1 ∨ cell.nvec = 2 ∨ cell.nvec = 3) :
    ∀ k, k < cell.nvec.toNat →
      cell_to_center cart cell center k = -⌈mic_f cell cart k - 1 / 2⌉ := by
  intro k hk
  rcases h with h|h|h
  · have hk0 : k = 0 := by rw [h] at hk; omega
    subst hk0
    norm_num [cell_to_center, h, Function.update_apply]
  · have hk0 : k = 0 ∨ k = 1 := by rw [h] at hk; omega
    rcases hk0 with hk0|hk0 <;> subst hk0 <;>
      norm_num [cell_to_center, h, Function.update_apply]
  · have hk0 : k = 0 ∨ k = 1 ∨ k = 2 := by rw [h] at hk; omega
    rcases hk0 with hk0|hk0|hk0 <;> subst hk0 <;>
      norm_num [cell_to_center, h, Function.update_apply]

/-- Concrete instance of the C9 theorem on the cubic cell at `k = 1`. -/
theorem cell_to_center_values_witness :
    cell_to_center delta0 cubeCell (fun _ => 9) 1 = -⌈mic_f cubeCell delta0 1 - 1 / 2⌉ :=
  cell_to_center_values delta0 cubeCell (fun _ => 9) (by decide) 1 (by decide)

/-- Claim C10: with `nvec < 3` (data-model range {0,1,2}) the Index
Transform writes only `center[0..nvec-1]`; every entry `center[k]` with
`k ≥ nvec` is left exactly as supplied, and with `nvec = 0` nothing is
written at all. -/
theorem cell_to_center_frame (cart : ℕ → ℚ) (cell : cell_type) (center : ℕ → ℤ)
    (h : cell.nvec = 0 ∨ cell.nvec = 1 ∨ cell.nvec = 2) :
    ∀ k, cell.nvec.toNat ≤ k → cell_to_center cart cell center k = center k := by
  intro k hk
  rcases h with h|h|h
  · simp [cell_to_center, h]
  · have h0 : k ≠ 0 := by rw [h] at hk; omega
    norm_num [cell_to_center, h, Function.update_apply, h0]
  · have h0 : k ≠ 0 := by rw [h] at hk; omega
    have h1 : k ≠ 1 := by rw [h] at hk; omega
    norm_num [cell_to_center, h, Function.update_apply, h0, h1]

/-- Concrete instance of the C10 theorem on the slab cell at `k = 2`. -/
theorem cell_to_center_frame_witness :
    cell_to_center delta0 slabCell (fun _ => 9) 2 = (fun _ => (9 : ℤ)) 2 :=
  cell_to_center_frame delta0 slabCell (fun _ => 9) (by decide) 2 (by decide)

/-- Claim C5: on a Cell whose active reciprocal rows are dual to its active
direct rows (`gvecs[j]·rvecs[k] = δ_jk` for `j,k < nvec`), reducing an
already-reduced displacement is a no-op: every translation count of the
second pass is 0 and the displacement is returned exactly unchanged
(exact arithmetic). -/
theorem cell_mic_idempotent (delta : ℕ → ℚ) (cell : cell_type)
    (hn : cell.nvec = 0 ∨ cell.nvec = 1 ∨ cell.nvec = 2 ∨ cell.nvec = 3)
    (hdual : ∀ j k : ℕ, j < cell.nvec.toNat → k < cell.nvec.toNat →
      dotGR cell j k = if j = k then 1 else 0) :
    (∀ k, k < cell.nvec.toNat → mic_counts cell (cell_mic delta cell) k = 0) ∧
    cell_mic (cell_mic delta cell) cell = cell_mic delta cell := by
  rcases hn with h|h|h|h
  · constructor
    · intro k hk
      rw [h] at hk
      omega
    · simp [cell_mic, h]
  · -- nvec = 1
    have h0 : (0 : ℕ) < cell.nvec.toNat := by omega
    have g00 : dotGR cell 0 0 = 1 := by simpa using hdual 0 0 h0 h0
    set dm := cell_mic delta cell with hdm
    have hmic : dm = micStep cell delta 0 := by rw [hdm]; norm_num [cell_mic, h]
    have hf0 : mic_f cell dm 0 = mic_f cell delta 0 - (mic_x cell delta 0 : ℚ) := by
      rw [hmic]
      simp only [mic_f_micStep, g00]
      ring
    have c0 : mic_x cell dm 0 = 0 := mic_x_eq_zero cell delta dm 0 hf0
    have e0 : micStep cell dm 0 = dm := micStep_of_count_zero cell dm 0 c0
    constructor
    · intro k hk
      have hk0 : k = 0 := by omega
      subst hk0
      simpa [mic_counts] using c0
    · norm_num [cell_mic, h, e0]
  · -- nvec = 2
    have h0 : (0 : ℕ) < cell.nvec.toNat := by omega
    have h1 : (1 : ℕ) < cell.nvec.toNat := by omega
    have g00 : dotGR cell 0 0 = 1 := by simpa using hdual 0 0 h0 h0
    have g01 : dotGR cell 0 1 = 0 := by simpa using hdual 0 1 h0 h1
    have g10 : dotGR cell 1 0 = 0 := by simpa using hdual 1 0 h1 h0
    have g11 : dotGR cell 1 1 = 1 := by simpa using hdual 1 1 h1 h1
    set dm := cell_mic delta cell with hdm
    have hmic : dm = micStep cell (micStep cell delta 0) 1 := by
      rw [hdm]; norm_num [cell_mic, h]
    have hf0 : mic_f cell dm 0 = mic_f cell delta 0 - (mic_x cell delta 0 : ℚ) := by
      rw [hmic]
      simp only [mic_f_micStep, g00, g01]
      ring
    have c0 : mic_x cell dm 0 = 0 := mic_x_eq_zero cell delta dm 0 hf0
    have e0 : micStep cell dm 0 = dm := micStep_of_count_zero cell dm 0 c0
    have hf1 : mic_f cell dm 1 = mic_f cell (micStep cell delta 0) 1 -
        (mic_x cell (micStep cell delta 0) 1 : ℚ) := by
      rw [hmic]
      simp only [mic_f_micStep, g10, g11]
      ring
    have c1 : mic_x cell dm 1 = 0 := mic_x_eq_zero cell (micStep cell delta 0) dm 1 hf1
    have e1 : micStep cell dm 1 = dm := micStep_of_count_zero cell dm 1 c1
    constructor
    · intro k hk
      have hk0 : k = 0 ∨ k = 1 := by omega
      rcases hk0 with hk0|hk0 <;> subst hk0
      · simpa [mic_counts] using c0
      · simp [mic_counts, e0, c1]
    · norm_num [cell_mic, h, e0, e1]
  · -- nvec = 3
    have h0 : (0 : ℕ) < cell.nvec.toNat := by omega
    have h1 : (1 : ℕ) < cell.nvec.toNat := by omega
    have h2 : (2 : ℕ) < cell.nvec.toNat := by omega
    have g00 : dotGR cell 0 0 = 1 := by simpa using hdual 0 0 h0 h0
    have g01 : dotGR cell 0 1 = 0 := by simpa using hdual 0 1 h0 h1
    have g02 : dotGR cell 0 2 = 0 := by simpa using hdual 0 2 h0 h2
    have g10 : dotGR cell 1 0 = 0 := by simpa using hdual 1 0 h1 h0
    have g11 : dotGR cell 1 1 = 1 := by simpa using hdual 1 1 h1 h1
    have g12 : dotGR cell 1 2 = 0 := by simpa using hdual 1 2 h1 h2
    have g20 : dotGR cell 2 0 = 0 := by simpa using hdual 2 0 h2 h0
    have g21 : dotGR cell 2 1 = 0 := by simpa using hdual 2 1 h2 h1
    have g22 : dotGR cell 2 2 = 1 := by simpa using hdual 2 2 h2 h2
    set dm := cell_mic delta cell with hdm
    have hmic : dm = micStep cell (micStep cell (micStep cell delta 0) 1) 2 := by
      rw [hdm]; norm_num [cell_mic, h]
    have hf0 : mic_f cell dm 0 = mic_f cell delta 0 - (mic_x cell delta 0 : ℚ) := by
      rw [hmic]
      simp only [mic_f_micStep, g00, g01, g02]
      ring
    have c0 : mic_x cell dm 0 = 0 := mic_x_eq_zero cell delta dm 0 hf0
    have e0 : micStep cell dm 0 = dm := micStep_of_count_zero cell dm 0 c0
    have hf1 : mic_f cell dm 1 = mic_f cell (micStep cell delta 0) 1 -
        (mic_x cell (micStep cell delta 0) 1 : ℚ) := by
      rw [hmic]
      simp only [mic_f_micStep, g10, g11, g12]
      ring
    have c1 : mic_x cell dm 1 = 0 := mic_x_eq_zero cell (micStep cell delta 0) dm 1 hf1
    have e1 : micStep cell dm 1 = dm := micStep_of_count_zero cell dm 1 c1
    have hf2 : mic_f cell dm 2 = mic_f cell (micStep cell (micStep cell delta 0) 1) 2 -
        (mic_x cell (micStep cell (micStep cell delta 0) 1) 2 : ℚ) := by
      rw [hmic]
      simp only [mic_f_micStep, g20, g21, g22]
      ring
    have c2 : mic_x cell dm 2 = 0 :=
      mic_x_eq_zero cell (micStep cell (micStep cell delta 0) 1) dm 2 hf2
    have e2 : micStep cell dm 2 = dm := micStep_of_count_zero cell dm 2 c2
    constructor
    · intro k hk
      have hk0 : k = 0 ∨ k = 1 ∨ k = 2 := by omega
      rcases hk0 with hk0|hk0|hk0 <;> subst hk0
      · simpa [mic_counts] using c0
      · simp [mic_counts, e0, c1]
      · simp [mic_counts, e0, e1, c2]
    · norm_num [cell_mic, h, e0, e1, e2]

/-- Concrete instance of the C5 theorem on the spec's cubic cell, whose
reciprocal rows are exactly dual to its direct rows. -/
theorem cell_mic_idempotent_witness :
    (∀ k, k < cubeCell.nvec.toNat → mic_counts cubeCell (cell_mic delta0 cubeCell) k = 0) ∧
      cell_mic (cell_mic delta0 cubeCell) cubeCell = cell_mic delta0 cubeCell :=
  cell_mic_idempotent delta0 cubeCell (by decide)
    (fun j k hj hk => by
      have hj3 : j < 3 := hj
      have hk3 : k < 3 := hk
      have hj0 : j = 0 ∨ j = 1 ∨ j = 2 := by omega
      have hk0 : k = 0 ∨ k = 1 ∨ k = 2 := by omega
      rcases hj0 with rfl|rfl|rfl <;> rcases hk0 with rfl|rfl|rfl <;>
        norm_num [dotGR, cubeCell])
